import Mathlib

/-!
# Verification of the `mytoken` fungible-token ledger

A shallow embedding of `src/mytoken.hpp` (an eosio token contract) and proofs
about its ledger operations.

Machine integers are modelled as `Int` with the explicit eosio asset range
checks (`|amount| ≤ 2^62 - 1`); eosio `check`/`get` aborts are modelled as
`Except String`; the two multi-index tables are association lists whose keys
are derived from the stored record, exactly as `primary_key()` derives them
in the source.  The bodies of the six ACTIONs (`create`, `issue`, `burn`,
`transfer`, `open`, `close`) are not present in `src/` (the header only
declares them); those are modelled from the spec and say so in their doc
comments.  Everything else (`sub_balance`, `add_balance`, `get_supply`,
`get_balance`, the table layout) is translated directly from the source.
-/

namespace mytoken

/-- eosio account name, `name.value : uint64`. -/
abbrev AccountName := Nat

/-- Raw symbol code, `symbol_code.raw() : uint64`. -/
abbrev SymCode := Nat

/-- eosio `symbol`: a code plus a decimal precision. -/
structure Symbol where
  code : SymCode
  precision : Nat
deriving DecidableEq, Repr

/-- eosio `asset`: a signed 64-bit amount tagged with a symbol. -/
structure Asset where
  amount : Int
  symbol : Symbol
deriving DecidableEq, Repr

/-- `eosio::asset::max_amount = 2^62 - 1`. -/
def maxAmount : Int := 2 ^ 62 - 1

/-- `eosio::asset::is_amount_within_range`. -/
def Asset.amountWithinRange (a : Asset) : Bool :=
  decide (-maxAmount ≤ a.amount) && decide (a.amount ≤ maxAmount)

/-- `eosio::asset::operator+=`: requires identical symbols and an in-range
result; the aborts are the library's `check` messages. -/
def addAsset (x v : Asset) : Except String Asset :=
  if v.symbol ≠ x.symbol then .error "attempt to add asset with different symbol"
  else if x.amount + v.amount < -maxAmount then .error "addition underflow"
  else if maxAmount < x.amount + v.amount then .error "addition overflow"
  else .ok ⟨x.amount + v.amount, x.symbol⟩

/-- `eosio::asset::operator-=`: requires identical symbols and an in-range
result; the aborts are the library's `check` messages. -/
def subAsset (x v : Asset) : Except String Asset :=
  if v.symbol ≠ x.symbol then .error "attempt to subtract asset with different symbol"
  else if x.amount - v.amount < -maxAmount then .error "subtraction underflow"
  else if maxAmount < x.amount - v.amount then .error "subtraction overflow"
  else .ok ⟨x.amount - v.amount, x.symbol⟩

/-- `TABLE account { asset balance; ... }`. -/
structure Account where
  balance : Asset
deriving DecidableEq, Repr

/-- `account::primary_key() { return balance.symbol.code().raw(); }`. -/
def Account.primary_key (a : Account) : SymCode := a.balance.symbol.code

/-- `TABLE currency_stats { asset supply; asset max_supply; name issuer; }`. -/
structure CurrencyStats where
  supply : Asset
  max_supply : Asset
  issuer : AccountName
deriving DecidableEq, Repr

/-- `currency_stats::primary_key() { return supply.symbol.code().raw(); }`. -/
def CurrencyStats.primary_key (s : CurrencyStats) : SymCode := s.supply.symbol.code

/-- One row of the `accounts` multi-index: the scope (owner) it lives in, the
RAM payer recorded by the host for the row, and the stored record.  The table
key is derived, `row.acct.primary_key`. -/
structure ARow where
  owner : AccountName
  payer : AccountName
  acct : Account
deriving DecidableEq, Repr

/-- The whole persistent state: the `stat` table (scope = key = symbol code,
so one row per code) and the `accounts` table rows of every scope. -/
structure Ledger where
  stats : List CurrencyStats
  accounts : List ARow
deriving DecidableEq, Repr

/-- `accounts(get_self(), owner).find(key)` / `.get(key)`: the row of scope
`owner` whose derived primary key is `key`. -/
def findRow (o : AccountName) (k : SymCode) (rows : List ARow) : Option ARow :=
  rows.find? (fun r => r.owner == o && r.acct.primary_key == k)

/-- `multi_index::modify` on the row `find` located: replace the first row of
scope `o` with key `k`; `pay = none` is `same_payer`. -/
def modifyRow (o : AccountName) (k : SymCode) (pay : Option AccountName) (a : Account) :
    List ARow → List ARow
  | [] => []
  | r :: rs =>
    if r.owner == o && r.acct.primary_key == k then ⟨r.owner, pay.getD r.payer, a⟩ :: rs
    else r :: modifyRow o k pay a rs

/-- `multi_index::erase` on the row `find` located. -/
def eraseRow (o : AccountName) (k : SymCode) : List ARow → List ARow
  | [] => []
  | r :: rs =>
    if r.owner == o && r.acct.primary_key == k then rs
    else r :: eraseRow o k rs

/-- `stats(get_self(), code).find(code)` / `.get(code)`. -/
def findStat (k : SymCode) (rows : List CurrencyStats) : Option CurrencyStats :=
  rows.find? (fun s => s.primary_key == k)

/-- `multi_index::modify` on the stat row `find` located. -/
def modifyStat (k : SymCode) (s' : CurrencyStats) : List CurrencyStats → List CurrencyStats
  | [] => []
  | s :: ss => if s.primary_key == k then s' :: ss else s :: modifyStat k s' ss

/-- `static asset get_supply(token_contract_account, sym_code)`: `.get` aborts
when the row is absent (default multi-index message). -/
def get_supply (l : Ledger) (sym_code : SymCode) : Except String Asset :=
  match findStat sym_code l.stats with
  | none => .error "unable to find key"
  | some st => .ok st.supply

/-- `static asset get_balance(token_contract_account, owner, sym_code)`:
`.get` aborts when the row is absent (default multi-index message). -/
def get_balance (l : Ledger) (owner : AccountName) (sym_code : SymCode) : Except String Asset :=
  match findRow owner sym_code l.accounts with
  | none => .error "unable to find key"
  | some r => .ok r.acct.balance

/-- `void sub_balance(owner, value)`: `get` with message
`"no balance object found"`, `check(balance.amount >= value.amount,
"overdrawn balance")`, then `modify(from, owner, balance -= value)`. -/
def sub_balance (owner : AccountName) (value : Asset) (l : Ledger) : Except String Ledger :=
  match findRow owner value.symbol.code l.accounts with
  | none => .error "no balance object found"
  | some from_ =>
    if from_.acct.balance.amount < value.amount then .error "overdrawn balance"
    else
      match subAsset from_.acct.balance value with
      | .error e => .error e
      | .ok nb =>
        .ok { l with accounts := modifyRow owner value.symbol.code (some owner) ⟨nb⟩ l.accounts }

/-- `void add_balance(owner, value, ram_payer)`: `find`, then `emplace(
ram_payer, balance = value)` when absent, else `modify(to, same_payer,
balance += value)`. -/
def add_balance (owner : AccountName) (value : Asset) (ram_payer : AccountName) (l : Ledger) :
    Except String Ledger :=
  match findRow owner value.symbol.code l.accounts with
  | none => .ok { l with accounts := l.accounts ++ [⟨owner, ram_payer, ⟨value⟩⟩] }
  | some to_ =>
    match addAsset to_.acct.balance value with
    | .error e => .error e
    | .ok nb =>
      .ok { l with accounts := modifyRow owner value.symbol.code none ⟨nb⟩ l.accounts }

/-- Modelled from the spec: the body of `ACTION create(issuer, maximum_supply)`
is not under `src/` (the header only declares it).  Per spec §4.1: requires a
valid positive `max_supply` below the `2^62` ceiling and no existing Supply
Record for the symbol code; inserts a Supply Record with a zero supply of the
same symbol. -/
def create (issuer : AccountName) (maximum_supply : Asset) (l : Ledger) :
    Except String Ledger :=
  if maximum_supply.amountWithinRange = false then .error "invalid supply"
  else if maximum_supply.amount ≤ 0 then .error "max-supply must be positive"
  else
    match findStat maximum_supply.symbol.code l.stats with
    | some _ => .error "token with symbol already exists"
    | none =>
      .ok { l with stats :=
              l.stats ++ [⟨⟨0, maximum_supply.symbol⟩, maximum_supply, issuer⟩] }

/-- Modelled from the spec: the body of `ACTION issue(to, quantity, memo)` is
not under `src/` (the header only declares it).  Per spec §4.1: requires an
existing Supply Record, `to == issuer`, a bounded memo, a valid positive
quantity of exactly the record's symbol, and room under `max_supply`;
increases `supply` and credits `to` via `add_balance` with the issuer paying
for a fresh row. -/
def issue (to_ : AccountName) (quantity : Asset) (memo : String) (l : Ledger) :
    Except String Ledger :=
  match findStat quantity.symbol.code l.stats with
  | none => .error "token with symbol does not exist, create token before issue"
  | some st =>
    if to_ ≠ st.issuer then .error "tokens can only be issued to issuer account"
    else if 256 < memo.length then .error "memo has more than 256 bytes"
    else if quantity.amountWithinRange = false then .error "invalid quantity"
    else if quantity.amount ≤ 0 then .error "must issue positive quantity"
    else if quantity.symbol ≠ st.supply.symbol then .error "symbol precision mismatch"
    else if st.max_supply.amount - st.supply.amount < quantity.amount then
      .error "quantity exceeds available supply"
    else
      match addAsset st.supply quantity with
      | .error e => .error e
      | .ok ns =>
        add_balance to_ quantity st.issuer
          { l with stats := modifyStat quantity.symbol.code { st with supply := ns } l.stats }

/-- Modelled from the spec: the body of `ACTION burn(quantity, memo)` is not
under `src/` (the header only declares it; its doc comment says it "debits the
statstable.supply amount").  Per spec §4.1: requires an existing Supply
Record, a bounded memo, a valid positive quantity of exactly the record's
symbol, and that the supply stays `≥ 0`; decreases `supply` only — no Account
Record is touched. -/
def burn (quantity : Asset) (memo : String) (l : Ledger) : Except String Ledger :=
  match findStat quantity.symbol.code l.stats with
  | none => .error "token with symbol does not exist"
  | some st =>
    if 256 < memo.length then .error "memo has more than 256 bytes"
    else if quantity.amountWithinRange = false then .error "invalid quantity"
    else if quantity.amount ≤ 0 then .error "must burn positive quantity"
    else if quantity.symbol ≠ st.supply.symbol then .error "symbol precision mismatch"
    else if st.supply.amount - quantity.amount < 0 then
      .error "cannot burn more than circulating supply"
    else
      match subAsset st.supply quantity with
      | .error e => .error e
      | .ok ns =>
        .ok { l with stats := modifyStat quantity.symbol.code { st with supply := ns } l.stats }

/-- Modelled from the spec: the body of
`ACTION transfer(from, to, quantity, memo)` is not under `src/` (the header
only declares it).  Per spec §4.2: requires `from ≠ to`, a bounded memo and a
valid positive quantity, then `sub_balance(from, quantity)` followed by
`add_balance(to, quantity, from)`; the listed failures are `SelfTransfer`,
`InvalidAmount`, `MemoTooLong` and the debit's own errors. -/
def transfer (from_ to_ : AccountName) (quantity : Asset) (memo : String) (l : Ledger) :
    Except String Ledger :=
  if from_ = to_ then .error "cannot transfer to self"
  else if 256 < memo.length then .error "memo has more than 256 bytes"
  else if quantity.amountWithinRange = false then .error "invalid quantity"
  else if quantity.amount ≤ 0 then .error "must transfer positive quantity"
  else
    match sub_balance from_ quantity l with
    | .error e => .error e
    | .ok l1 => add_balance to_ quantity from_ l1

/-- Modelled from the spec: the body of `ACTION open(owner, symbol, ram_payer)`
is not under `src/` (the header only declares it).  Per spec §4.3: requires a
Supply Record for the symbol; if no Account Record exists for
(owner, symbol code), creates one with zero balance paid by `ram_payer`;
otherwise a no-op that never fails on "already open". -/
def open_ (owner : AccountName) (sym : Symbol) (ram_payer : AccountName) (l : Ledger) :
    Except String Ledger :=
  match findStat sym.code l.stats with
  | none => .error "symbol does not exist"
  | some _ =>
    match findRow owner sym.code l.accounts with
    | some _ => .ok l
    | none => .ok { l with accounts := l.accounts ++ [⟨owner, ram_payer, ⟨⟨0, sym⟩⟩⟩] }

/-- Modelled from the spec: the body of `ACTION close(owner, symbol)` is not
under `src/` (the header only declares it; its doc comment says the pair has
to exist "otherwise no action is executed" and the balance has to be zero).
Per spec §4.3: a no-op when no Account Record exists; when one exists its
balance must be exactly zero, and the record is erased. -/
def close (owner : AccountName) (sym : Symbol) (l : Ledger) : Except String Ledger :=
  match findRow owner sym.code l.accounts with
  | none => .ok l
  | some r =>
    if r.acct.balance.amount ≠ 0 then .error "cannot close because the balance is not zero"
    else .ok { l with accounts := eraseRow owner sym.code l.accounts }

/-- One ledger operation (one inbound action). -/
inductive Op where
  | create (issuer : AccountName) (maximum_supply : Asset)
  | issue (to_ : AccountName) (quantity : Asset) (memo : String)
  | burn (quantity : Asset) (memo : String)
  | transfer (from_ to_ : AccountName) (quantity : Asset) (memo : String)
  | open_ (owner : AccountName) (sym : Symbol) (ram_payer : AccountName)
  | close (owner : AccountName) (sym : Symbol)
deriving DecidableEq, Repr

/-- Run one operation, propagating its abort. -/
def runOp : Op → Ledger → Except String Ledger
  | .create issuer m, l => create issuer m l
  | .issue t q memo, l => issue t q memo l
  | .burn q memo, l => burn q memo l
  | .transfer f t q memo, l => transfer f t q memo l
  | .open_ o s p, l => open_ o s p l
  | .close o s, l => close o s l

/-- Host abort semantics: a failing `check`/`get` rejects the whole action and
leaves the persisted state untouched. -/
def applyOp (o : Op) (l : Ledger) : Ledger :=
  match runOp o l with
  | .ok l' => l'
  | .error _ => l

/-- Apply a serialized sequence of operations. -/
def applyOps (ops : List Op) (l : Ledger) : Ledger :=
  ops.foldl (fun s o => applyOp o s) l

/-- The ledger before any operation. -/
def emptyLedger : Ledger := ⟨[], []⟩

/-- Sum of all account balances stored under symbol code `c`. -/
def sumBal (c : SymCode) (rows : List ARow) : Int :=
  rows.foldr (fun r acc => (if r.acct.primary_key == c then r.acct.balance.amount else 0) + acc) 0

/-- The recorded supply for symbol code `c` (0 when no Supply Record exists). -/
def supplyOf (l : Ledger) (c : SymCode) : Int :=
  match findStat c l.stats with
  | some st => st.supply.amount
  | none => 0

/-- Every stored balance is non-negative. -/
def NonNegLedger (l : Ledger) : Prop :=
  ∀ r ∈ l.accounts, 0 ≤ r.acct.balance.amount

/-- The derived (scope, primary key) pair of a stored row. -/
def rowKey (r : ARow) : AccountName × SymCode := (r.owner, r.acct.primary_key)

/-- The `accounts` table has at most one row per (scope, primary key). -/
def NodupAccKeys (l : Ledger) : Prop :=
  (l.accounts.map rowKey).Nodup

/-- Conservation: per symbol code, stored balances sum to the recorded
supply. -/
def Conserves (l : Ledger) : Prop :=
  ∀ c, sumBal c l.accounts = supplyOf l c

/-- Whether an operation is a `burn`. -/
def Op.isBurn : Op → Bool
  | .burn _ _ => true
  | _ => false

theorem findRow_cons_pos {o : AccountName} {k : SymCode} {hd : ARow} {tl : List ARow}
    (hp : (hd.owner == o && hd.acct.primary_key == k) = true) :
    findRow o k (hd :: tl) = some hd :=
  List.find?_cons_of_pos (p := fun r : ARow => r.owner == o && r.acct.primary_key == k) _ hp

theorem findRow_cons_neg {o : AccountName} {k : SymCode} {hd : ARow} {tl : List ARow}
    (hp : ¬(hd.owner == o && hd.acct.primary_key == k) = true) :
    findRow o k (hd :: tl) = findRow o k tl :=
  List.find?_cons_of_neg (p := fun r : ARow => r.owner == o && r.acct.primary_key == k) _ hp

theorem findRow_eq_some {o : AccountName} {k : SymCode} {rows : List ARow} {r : ARow}
    (h : findRow o k rows = some r) :
    r.owner = o ∧ r.acct.primary_key = k ∧ r ∈ rows := by
  have hp := List.find?_some h
  have hm := List.mem_of_find?_eq_some h
  simp only [Bool.and_eq_true, beq_iff_eq] at hp
  exact ⟨hp.1, hp.2, hm⟩

theorem findRow_eq_none {o : AccountName} {k : SymCode} {rows : List ARow} :
    findRow o k rows = none ↔ ∀ r ∈ rows, r.owner = o → r.acct.primary_key ≠ k := by
  simp [findRow, List.find?_eq_none]

theorem findRow_modifyRow_self {o : AccountName} {k : SymCode} {pay : Option AccountName}
    {a : Account} {rows : List ARow} {r : ARow}
    (hf : findRow o k rows = some r) (hk : a.primary_key = k) :
    findRow o k (modifyRow o k pay a rows) = some ⟨r.owner, pay.getD r.payer, a⟩ := by
  induction rows with
  | nil => simp [findRow] at hf
  | cons hd tl ih =>
    by_cases hp : (hd.owner == o && hd.acct.primary_key == k) = true
    · rw [findRow_cons_pos hp] at hf
      injection hf with hf
      subst hf
      have hp' : ((ARow.mk hd.owner (pay.getD hd.payer) a).owner == o &&
          (ARow.mk hd.owner (pay.getD hd.payer) a).acct.primary_key == k) = true := by
        simp only [Bool.and_eq_true, beq_iff_eq] at hp ⊢
        exact ⟨hp.1, hk⟩
      simp only [modifyRow, if_pos hp]
      rw [findRow_cons_pos hp']
    · rw [findRow_cons_neg hp] at hf
      simp only [modifyRow, if_neg hp]
      rw [findRow_cons_neg hp]
      exact ih hf

theorem findRow_modifyRow_other {o : AccountName} {k : SymCode} {o' : AccountName} {k' : SymCode}
    {pay : Option AccountName} {a : Account} (rows : List ARow)
    (hk : a.primary_key = k) (hne : ¬(o' = o ∧ k' = k)) :
    findRow o' k' (modifyRow o k pay a rows) = findRow o' k' rows := by
  induction rows with
  | nil => rfl
  | cons hd tl ih =>
    by_cases hp : (hd.owner == o && hd.acct.primary_key == k) = true
    · simp only [modifyRow, if_pos hp]
      simp only [Bool.and_eq_true, beq_iff_eq] at hp
      have h1 : ¬((hd.owner == o' && hd.acct.primary_key == k') = true) := by
        simp only [Bool.and_eq_true, beq_iff_eq]
        rintro ⟨e1, e2⟩
        exact hne ⟨by rw [← e1, hp.1], by rw [← e2, hp.2]⟩
      have h2 : ¬(((ARow.mk hd.owner (pay.getD hd.payer) a).owner == o' &&
          (ARow.mk hd.owner (pay.getD hd.payer) a).acct.primary_key == k') = true) := by
        simp only [Bool.and_eq_true, beq_iff_eq]
        rintro ⟨e1, e2⟩
        exact hne ⟨by rw [← e1, hp.1], by rw [← e2, hk]⟩
      rw [findRow_cons_neg h2, findRow_cons_neg h1]
    · simp only [modifyRow, if_neg hp]
      by_cases hq : (hd.owner == o' && hd.acct.primary_key == k') = true
      · rw [findRow_cons_pos hq, findRow_cons_pos hq]
      · rw [findRow_cons_neg hq, findRow_cons_neg hq]
        exact ih

theorem findRow_eraseRow_other {o : AccountName} {k : SymCode} {o' : AccountName} {k' : SymCode}
    (rows : List ARow) (hne : ¬(o' = o ∧ k' = k)) :
    findRow o' k' (eraseRow o k rows) = findRow o' k' rows := by
  induction rows with
  | nil => rfl
  | cons hd tl ih =>
    by_cases hp : (hd.owner == o && hd.acct.primary_key == k) = true
    · simp only [eraseRow, if_pos hp]
      simp only [Bool.and_eq_true, beq_iff_eq] at hp
      have h1 : ¬((hd.owner == o' && hd.acct.primary_key == k') = true) := by
        simp only [Bool.and_eq_true, beq_iff_eq]
        rintro ⟨e1, e2⟩
        exact hne ⟨by rw [← e1, hp.1], by rw [← e2, hp.2]⟩
      rw [findRow_cons_neg h1]
    · simp only [eraseRow, if_neg hp]
      by_cases hq : (hd.owner == o' && hd.acct.primary_key == k') = true
      · rw [findRow_cons_pos hq, findRow_cons_pos hq]
      · rw [findRow_cons_neg hq, findRow_cons_neg hq]
        exact ih

theorem findRow_eraseRow_self {o : AccountName} {k : SymCode} {rows : List ARow}
    (hnd : (rows.map rowKey).Nodup) :
    findRow o k (eraseRow o k rows) = none := by
  induction rows with
  | nil => rfl
  | cons hd tl ih =>
    rw [List.map_cons, List.nodup_cons] at hnd
    by_cases hp : (hd.owner == o && hd.acct.primary_key == k) = true
    · simp only [eraseRow, if_pos hp]
      simp only [Bool.and_eq_true, beq_iff_eq] at hp
      rw [findRow, List.find?_eq_none]
      intro r hr hq
      simp only [Bool.and_eq_true, beq_iff_eq] at hq
      exact hnd.1 (List.mem_map.2 ⟨r, hr, by simp [rowKey, hq.1, hq.2, hp.1, hp.2]⟩)
    · simp only [eraseRow, if_neg hp]
      rw [findRow_cons_neg hp]
      exact ih hnd.2

theorem findRow_append_of_some {o : AccountName} {k : SymCode} {rows rows' : List ARow} {r : ARow}
    (h : findRow o k rows = some r) :
    findRow o k (rows ++ rows') = some r := by
  induction rows with
  | nil => simp [findRow] at h
  | cons hd tl ih =>
    by_cases hp : (hd.owner == o && hd.acct.primary_key == k) = true
    · rw [findRow_cons_pos hp] at h
      rw [List.cons_append, findRow_cons_pos hp]
      exact h
    · rw [findRow_cons_neg hp] at h
      rw [List.cons_append, findRow_cons_neg hp]
      exact ih h

theorem findRow_append_of_none {o : AccountName} {k : SymCode} {rows : List ARow} {r : ARow}
    (h : findRow o k rows = none) :
    findRow o k (rows ++ [r]) =
      if (r.owner == o && r.acct.primary_key == k) = true then some r else none := by
  induction rows with
  | nil =>
    by_cases hp : (r.owner == o && r.acct.primary_key == k) = true
    · rw [List.nil_append, findRow_cons_pos hp, if_pos hp]
    · rw [List.nil_append, findRow_cons_neg hp, if_neg hp]
      rfl
  | cons hd tl ih =>
    by_cases hp : (hd.owner == o && hd.acct.primary_key == k) = true
    · rw [findRow_cons_pos hp] at h
      exact absurd h (by simp)
    · rw [findRow_cons_neg hp] at h
      rw [List.cons_append, findRow_cons_neg hp]
      exact ih h

theorem sumBal_nil (c : SymCode) : sumBal c [] = 0 := rfl

theorem sumBal_cons (c : SymCode) (r : ARow) (rows : List ARow) :
    sumBal c (r :: rows) =
      (if r.acct.primary_key == c then r.acct.balance.amount else 0) + sumBal c rows := rfl

theorem sumBal_append (c : SymCode) (xs ys : List ARow) :
    sumBal c (xs ++ ys) = sumBal c xs + sumBal c ys := by
  induction xs with
  | nil => rw [List.nil_append, sumBal_nil, zero_add]
  | cons hd tl ih => rw [List.cons_append, sumBal_cons, sumBal_cons, ih, add_assoc]

theorem sumBal_modifyRow {o : AccountName} {k : SymCode} {pay : Option AccountName}
    {a : Account} {rows : List ARow} {r : ARow} (c : SymCode)
    (hf : findRow o k rows = some r) (hk : a.primary_key = k) :
    sumBal c (modifyRow o k pay a rows) =
      sumBal c rows + (if k == c then a.balance.amount - r.acct.balance.amount else 0) := by
  induction rows with
  | nil => simp [findRow] at hf
  | cons hd tl ih =>
    by_cases hp : (hd.owner == o && hd.acct.primary_key == k) = true
    · rw [findRow_cons_pos hp] at hf
      injection hf with hf
      subst hf
      have hdk : hd.acct.primary_key = k := by
        simp only [Bool.and_eq_true, beq_iff_eq] at hp
        exact hp.2
      simp only [modifyRow, if_pos hp]
      rw [sumBal_cons, sumBal_cons]
      simp only [hk, hdk]
      by_cases hc : (k == c) = true
      · rw [if_pos hc, if_pos hc, if_pos hc]
        ring
      · rw [if_neg hc, if_neg hc, if_neg hc]
        ring
    · rw [findRow_cons_neg hp] at hf
      simp only [modifyRow, if_neg hp]
      rw [sumBal_cons, sumBal_cons, ih hf]
      ring

theorem sumBal_eraseRow {o : AccountName} {k : SymCode} {rows : List ARow} {r : ARow}
    (c : SymCode) (hf : findRow o k rows = some r) :
    sumBal c (eraseRow o k rows) =
      sumBal c rows - (if k == c then r.acct.balance.amount else 0) := by
  induction rows with
  | nil => simp [findRow] at hf
  | cons hd tl ih =>
    by_cases hp : (hd.owner == o && hd.acct.primary_key == k) = true
    · rw [findRow_cons_pos hp] at hf
      injection hf with hf
      subst hf
      have hdk : hd.acct.primary_key = k := by
        simp only [Bool.and_eq_true, beq_iff_eq] at hp
        exact hp.2
      simp only [eraseRow, if_pos hp]
      rw [sumBal_cons]
      simp only [hdk]
      ring
    · rw [findRow_cons_neg hp] at hf
      simp only [eraseRow, if_neg hp]
      rw [sumBal_cons, sumBal_cons, ih hf]
      ring

theorem mem_modifyRow {o : AccountName} {k : SymCode} {pay : Option AccountName}
    {a : Account} {rows : List ARow} {r' : ARow}
    (h : r' ∈ modifyRow o k pay a rows) : r'.acct = a ∨ r' ∈ rows := by
  induction rows with
  | nil => simp [modifyRow] at h
  | cons hd tl ih =>
    by_cases hp : (hd.owner == o && hd.acct.primary_key == k) = true
    · simp only [modifyRow, if_pos hp] at h
      rcases List.mem_cons.1 h with h1 | h1
      · exact Or.inl (by rw [h1])
      · exact Or.inr (List.mem_cons_of_mem _ h1)
    · simp only [modifyRow, if_neg hp] at h
      rcases List.mem_cons.1 h with h1 | h1
      · exact Or.inr (h1 ▸ List.mem_cons_self _ _)
      · rcases ih h1 with h2 | h2
        · exact Or.inl h2
        · exact Or.inr (List.mem_cons_of_mem _ h2)

theorem mem_eraseRow {o : AccountName} {k : SymCode} {rows : List ARow} {r' : ARow}
    (h : r' ∈ eraseRow o k rows) : r' ∈ rows := by
  induction rows with
  | nil => simp [eraseRow] at h
  | cons hd tl ih =>
    by_cases hp : (hd.owner == o && hd.acct.primary_key == k) = true
    · simp only [eraseRow, if_pos hp] at h
      exact List.mem_cons_of_mem _ h
    · simp only [eraseRow, if_neg hp] at h
      rcases List.mem_cons.1 h with h1 | h1
      · exact h1 ▸ List.mem_cons_self _ _
      · exact List.mem_cons_of_mem _ (ih h1)

theorem keys_modifyRow {o : AccountName} {k : SymCode} {pay : Option AccountName}
    {a : Account} (rows : List ARow) (hk : a.primary_key = k) :
    (modifyRow o k pay a rows).map rowKey = rows.map rowKey := by
  induction rows with
  | nil => rfl
  | cons hd tl ih =>
    by_cases hp : (hd.owner == o && hd.acct.primary_key == k) = true
    · simp only [modifyRow, if_pos hp]
      have hdk : hd.acct.primary_key = k := by
        simp only [Bool.and_eq_true, beq_iff_eq] at hp
        exact hp.2
      simp [rowKey, hk, hdk]
    · simp only [modifyRow, if_neg hp, List.map_cons, ih]

theorem keys_eraseRow_sublist {o : AccountName} {k : SymCode} (rows : List ARow) :
    ((eraseRow o k rows).map rowKey).Sublist (rows.map rowKey) := by
  induction rows with
  | nil => exact List.Sublist.refl _
  | cons hd tl ih =>
    by_cases hp : (hd.owner == o && hd.acct.primary_key == k) = true
    · simp only [eraseRow, if_pos hp, List.map_cons]
      exact List.sublist_cons_of_sublist _ (List.Sublist.refl _)
    · simp only [eraseRow, if_neg hp, List.map_cons]
      exact List.Sublist.cons₂ _ ih

theorem findStat_cons_pos {k : SymCode} {hd : CurrencyStats} {tl : List CurrencyStats}
    (hp : (hd.primary_key == k) = true) :
    findStat k (hd :: tl) = some hd :=
  List.find?_cons_of_pos (p := fun s : CurrencyStats => s.primary_key == k) _ hp

theorem findStat_cons_neg {k : SymCode} {hd : CurrencyStats} {tl : List CurrencyStats}
    (hp : ¬(hd.primary_key == k) = true) :
    findStat k (hd :: tl) = findStat k tl :=
  List.find?_cons_of_neg (p := fun s : CurrencyStats => s.primary_key == k) _ hp

theorem findStat_eq_some {k : SymCode} {rows : List CurrencyStats} {st : CurrencyStats}
    (h : findStat k rows = some st) : st.primary_key = k ∧ st ∈ rows := by
  have hp := List.find?_some h
  have hm := List.mem_of_find?_eq_some h
  simp only [beq_iff_eq] at hp
  exact ⟨hp, hm⟩

theorem findStat_modifyStat_self {k : SymCode} {s' : CurrencyStats} {rows : List CurrencyStats}
    {st : CurrencyStats} (hf : findStat k rows = some st) (hk : s'.primary_key = k) :
    findStat k (modifyStat k s' rows) = some s' := by
  induction rows with
  | nil => simp [findStat] at hf
  | cons hd tl ih =>
    by_cases hp : (hd.primary_key == k) = true
    · simp only [modifyStat, if_pos hp]
      exact findStat_cons_pos (by simp [beq_iff_eq, hk])
    · simp only [modifyStat, if_neg hp]
      rw [findStat_cons_neg hp] at hf
      rw [findStat_cons_neg hp]
      exact ih hf

theorem findStat_modifyStat_other {k c : SymCode} {s' : CurrencyStats}
    (rows : List CurrencyStats) (hk : s'.primary_key = k) (hne : c ≠ k) :
    findStat c (modifyStat k s' rows) = findStat c rows := by
  induction rows with
  | nil => rfl
  | cons hd tl ih =>
    by_cases hp : (hd.primary_key == k) = true
    · simp only [modifyStat, if_pos hp]
      simp only [beq_iff_eq] at hp
      have h1 : ¬(hd.primary_key == c) = true := by
        simp only [beq_iff_eq]
        intro e
        exact hne (by rw [← e, hp])
      have h2 : ¬(s'.primary_key == c) = true := by
        simp only [beq_iff_eq]
        intro e
        exact hne (by rw [← e, hk])
      rw [findStat_cons_neg h2, findStat_cons_neg h1]
    · simp only [modifyStat, if_neg hp]
      by_cases hq : (hd.primary_key == c) = true
      · rw [findStat_cons_pos hq, findStat_cons_pos hq]
      · rw [findStat_cons_neg hq, findStat_cons_neg hq]
        exact ih

theorem findStat_append_of_some {c : SymCode} {rows rows' : List CurrencyStats}
    {st : CurrencyStats} (h : findStat c rows = some st) :
    findStat c (rows ++ rows') = some st := by
  induction rows with
  | nil => simp [findStat] at h
  | cons hd tl ih =>
    by_cases hp : (hd.primary_key == c) = true
    · rw [findStat_cons_pos hp] at h
      rw [List.cons_append, findStat_cons_pos hp]
      exact h
    · rw [findStat_cons_neg hp] at h
      rw [List.cons_append, findStat_cons_neg hp]
      exact ih h

theorem findStat_append_of_none {c : SymCode} {rows : List CurrencyStats} {s : CurrencyStats}
    (h : findStat c rows = none) :
    findStat c (rows ++ [s]) = if (s.primary_key == c) = true then some s else none := by
  induction rows with
  | nil =>
    by_cases hp : (s.primary_key == c) = true
    · rw [List.nil_append, findStat_cons_pos hp, if_pos hp]
    · rw [List.nil_append, findStat_cons_neg hp, if_neg hp]
      rfl
  | cons hd tl ih =>
    by_cases hp : (hd.primary_key == c) = true
    · rw [findStat_cons_pos hp] at h
      exact absurd h (by simp)
    · rw [findStat_cons_neg hp] at h
      rw [List.cons_append, findStat_cons_neg hp]
      exact ih h

theorem addAsset_ok {x v nb : Asset} (h : addAsset x v = .ok nb) :
    v.symbol = x.symbol ∧ nb = ⟨x.amount + v.amount, x.symbol⟩ ∧
      -maxAmount ≤ x.amount + v.amount ∧ x.amount + v.amount ≤ maxAmount := by
  unfold addAsset at h
  by_cases h1 : v.symbol ≠ x.symbol
  · rw [if_pos h1] at h
    exact absurd h (by simp)
  rw [if_neg h1] at h
  by_cases h2 : x.amount + v.amount < -maxAmount
  · rw [if_pos h2] at h
    exact absurd h (by simp)
  rw [if_neg h2] at h
  by_cases h3 : maxAmount < x.amount + v.amount
  · rw [if_pos h3] at h
    exact absurd h (by simp)
  rw [if_neg h3] at h
  injection h with h
  exact ⟨not_not.1 h1, h.symm, le_of_not_lt h2, le_of_not_lt h3⟩

theorem subAsset_ok {x v nb : Asset} (h : subAsset x v = .ok nb) :
    v.symbol = x.symbol ∧ nb = ⟨x.amount - v.amount, x.symbol⟩ ∧
      -maxAmount ≤ x.amount - v.amount ∧ x.amount - v.amount ≤ maxAmount := by
  unfold subAsset at h
  by_cases h1 : v.symbol ≠ x.symbol
  · rw [if_pos h1] at h
    exact absurd h (by simp)
  rw [if_neg h1] at h
  by_cases h2 : x.amount - v.amount < -maxAmount
  · rw [if_pos h2] at h
    exact absurd h (by simp)
  rw [if_neg h2] at h
  by_cases h3 : maxAmount < x.amount - v.amount
  · rw [if_pos h3] at h
    exact absurd h (by simp)
  rw [if_neg h3] at h
  injection h with h
  exact ⟨not_not.1 h1, h.symm, le_of_not_lt h2, le_of_not_lt h3⟩

theorem sub_balance_ok {owner : AccountName} {value : Asset} {l l' : Ledger}
    (h : sub_balance owner value l = .ok l') :
    ∃ r, findRow owner value.symbol.code l.accounts = some r ∧
      value.amount ≤ r.acct.balance.amount ∧
      value.symbol = r.acct.balance.symbol ∧
      l' = { l with accounts := (modifyRow owner value.symbol.code (some owner)
              ⟨⟨r.acct.balance.amount - value.amount, r.acct.balance.symbol⟩⟩ l.accounts) } := by
  unfold sub_balance at h
  split at h
  · exact absurd h (by simp)
  rename_i r hf
  by_cases h1 : r.acct.balance.amount < value.amount
  · rw [if_pos h1] at h
    exact absurd h (by simp)
  rw [if_neg h1] at h
  split at h
  · exact absurd h (by simp)
  rename_i nb hs
  obtain ⟨hsym, hnb, -, -⟩ := subAsset_ok hs
  injection h with h
  exact ⟨r, hf, le_of_not_lt h1, hsym, by rw [← h, hnb]⟩

theorem add_balance_ok {owner : AccountName} {value : Asset} {ram_payer : AccountName}
    {l l' : Ledger} (h : add_balance owner value ram_payer l = .ok l') :
    (findRow owner value.symbol.code l.accounts = none ∧
      l' = { l with accounts := l.accounts ++ [⟨owner, ram_payer, ⟨value⟩⟩] }) ∨
    (∃ r, findRow owner value.symbol.code l.accounts = some r ∧
      value.symbol = r.acct.balance.symbol ∧
      l' = { l with accounts := (modifyRow owner value.symbol.code none
              ⟨⟨r.acct.balance.amount + value.amount, r.acct.balance.symbol⟩⟩ l.accounts) }) := by
  unfold add_balance at h
  split at h
  · rename_i hf
    injection h with h
    exact Or.inl ⟨hf, h.symm⟩
  rename_i r hf
  split at h
  · exact absurd h (by simp)
  rename_i nb ha
  obtain ⟨hsym, hnb, -, -⟩ := addAsset_ok ha
  injection h with h
  exact Or.inr ⟨r, hf, hsym, by rw [← h, hnb]⟩

theorem create_ok {issuer : AccountName} {m : Asset} {l l' : Ledger}
    (h : create issuer m l = .ok l') :
    m.amountWithinRange = true ∧ 0 < m.amount ∧
      findStat m.symbol.code l.stats = none ∧
      l' = { l with stats := l.stats ++ [⟨⟨0, m.symbol⟩, m, issuer⟩] } := by
  unfold create at h
  by_cases h1 : m.amountWithinRange = false
  · rw [if_pos h1] at h
    exact absurd h (by simp)
  rw [if_neg h1] at h
  by_cases h2 : m.amount ≤ 0
  · rw [if_pos h2] at h
    exact absurd h (by simp)
  rw [if_neg h2] at h
  split at h
  · exact absurd h (by simp)
  rename_i hf
  injection h with h
  exact ⟨eq_true_of_ne_false h1, lt_of_not_le h2, hf, h.symm⟩

theorem issue_ok {to_ : AccountName} {q : Asset} {memo : String} {l l' : Ledger}
    (h : issue to_ q memo l = .ok l') :
    ∃ st, findStat q.symbol.code l.stats = some st ∧ to_ = st.issuer ∧
      0 < q.amount ∧ q.symbol = st.supply.symbol ∧
      q.amount ≤ st.max_supply.amount - st.supply.amount ∧
      add_balance to_ q st.issuer
        { l with stats := (modifyStat q.symbol.code
            { st with supply := ⟨st.supply.amount + q.amount, st.supply.symbol⟩ } l.stats) } =
        .ok l' := by
  unfold issue at h
  split at h
  · exact absurd h (by simp)
  rename_i st hf
  by_cases h1 : to_ ≠ st.issuer
  · rw [if_pos h1] at h
    exact absurd h (by simp)
  rw [if_neg h1] at h
  by_cases h2 : 256 < memo.length
  · rw [if_pos h2] at h
    exact absurd h (by simp)
  rw [if_neg h2] at h
  by_cases h3 : q.amountWithinRange = false
  · rw [if_pos h3] at h
    exact absurd h (by simp)
  rw [if_neg h3] at h
  by_cases h4 : q.amount ≤ 0
  · rw [if_pos h4] at h
    exact absurd h (by simp)
  rw [if_neg h4] at h
  by_cases h5 : q.symbol ≠ st.supply.symbol
  · rw [if_pos h5] at h
    exact absurd h (by simp)
  rw [if_neg h5] at h
  by_cases h6 : st.max_supply.amount - st.supply.amount < q.amount
  · rw [if_pos h6] at h
    exact absurd h (by simp)
  rw [if_neg h6] at h
  split at h
  · exact absurd h (by simp)
  rename_i ns ha
  obtain ⟨-, hns, -, -⟩ := addAsset_ok ha
  subst hns
  exact ⟨st, hf, not_not.1 h1, lt_of_not_le h4, not_not.1 h5, le_of_not_lt h6, h⟩

theorem burn_ok {q : Asset} {memo : String} {l l' : Ledger}
    (h : burn q memo l = .ok l') :
    ∃ st, findStat q.symbol.code l.stats = some st ∧
      0 < q.amount ∧ q.symbol = st.supply.symbol ∧ q.amount ≤ st.supply.amount ∧
      l' = { l with stats := (modifyStat q.symbol.code
              { st with supply := ⟨st.supply.amount - q.amount, st.supply.symbol⟩ } l.stats) } := by
  unfold burn at h
  split at h
  · exact absurd h (by simp)
  rename_i st hf
  by_cases h2 : 256 < memo.length
  · rw [if_pos h2] at h
    exact absurd h (by simp)
  rw [if_neg h2] at h
  by_cases h3 : q.amountWithinRange = false
  · rw [if_pos h3] at h
    exact absurd h (by simp)
  rw [if_neg h3] at h
  by_cases h4 : q.amount ≤ 0
  · rw [if_pos h4] at h
    exact absurd h (by simp)
  rw [if_neg h4] at h
  by_cases h5 : q.symbol ≠ st.supply.symbol
  · rw [if_pos h5] at h
    exact absurd h (by simp)
  rw [if_neg h5] at h
  by_cases h6 : st.supply.amount - q.amount < 0
  · rw [if_pos h6] at h
    exact absurd h (by simp)
  rw [if_neg h6] at h
  split at h
  · exact absurd h (by simp)
  rename_i ns hs
  obtain ⟨-, hns, -, -⟩ := subAsset_ok hs
  injection h with h
  refine ⟨st, hf, lt_of_not_le h4, not_not.1 h5, ?_, by rw [← h, hns]⟩
  have := le_of_not_lt h6
  omega

theorem transfer_ok {f t : AccountName} {q : Asset} {memo : String} {l l' : Ledger}
    (h : transfer f t q memo l = .ok l') :
    f ≠ t ∧ 0 < q.amount ∧
      ∃ l1, sub_balance f q l = .ok l1 ∧ add_balance t q f l1 = .ok l' := by
  unfold transfer at h
  by_cases h1 : f = t
  · rw [if_pos h1] at h
    exact absurd h (by simp)
  rw [if_neg h1] at h
  by_cases h2 : 256 < memo.length
  · rw [if_pos h2] at h
    exact absurd h (by simp)
  rw [if_neg h2] at h
  by_cases h3 : q.amountWithinRange = false
  · rw [if_pos h3] at h
    exact absurd h (by simp)
  rw [if_neg h3] at h
  by_cases h4 : q.amount ≤ 0
  · rw [if_pos h4] at h
    exact absurd h (by simp)
  rw [if_neg h4] at h
  split at h
  · exact absurd h (by simp)
  rename_i l1 hs
  exact ⟨h1, lt_of_not_le h4, l1, hs, h⟩

theorem open_ok {owner : AccountName} {sym : Symbol} {payer : AccountName} {l l' : Ledger}
    (h : open_ owner sym payer l = .ok l') :
    (∃ st, findStat sym.code l.stats = some st) ∧
      ((∃ r, findRow owner sym.code l.accounts = some r ∧ l' = l) ∨
       (findRow owner sym.code l.accounts = none ∧
         l' = { l with accounts := l.accounts ++ [⟨owner, payer, ⟨⟨0, sym⟩⟩⟩] })) := by
  unfold open_ at h
  split at h
  · exact absurd h (by simp)
  rename_i st hf
  split at h
  · rename_i r hr
    injection h with h
    exact ⟨⟨st, hf⟩, Or.inl ⟨r, hr, h.symm⟩⟩
  · rename_i hr
    injection h with h
    exact ⟨⟨st, hf⟩, Or.inr ⟨hr, h.symm⟩⟩

theorem close_ok {owner : AccountName} {sym : Symbol} {l l' : Ledger}
    (h : close owner sym l = .ok l') :
    (findRow owner sym.code l.accounts = none ∧ l' = l) ∨
    (∃ r, findRow owner sym.code l.accounts = some r ∧ r.acct.balance.amount = 0 ∧
      l' = { l with accounts := eraseRow owner sym.code l.accounts }) := by
  unfold close at h
  split at h
  · rename_i hr
    injection h with h
    exact Or.inl ⟨hr, h.symm⟩
  rename_i r hr
  by_cases h1 : r.acct.balance.amount ≠ 0
  · rw [if_pos h1] at h
    exact absurd h (by simp)
  rw [if_neg h1] at h
  injection h with h
  exact Or.inr ⟨r, hr, not_not.1 h1, h.symm⟩

theorem applyOp_of_ok {o : Op} {l l' : Ledger} (h : runOp o l = .ok l') :
    applyOp o l = l' := by
  unfold applyOp
  rw [h]

theorem applyOp_of_error {o : Op} {l : Ledger} {e : String} (h : runOp o l = .error e) :
    applyOp o l = l := by
  unfold applyOp
  rw [h]

theorem applyOps_nil (l : Ledger) : applyOps [] l = l := rfl

theorem applyOps_cons (o : Op) (os : List Op) (l : Ledger) :
    applyOps (o :: os) l = applyOps os (applyOp o l) := rfl

theorem sub_balance_nonNeg {owner : AccountName} {value : Asset} {l l' : Ledger}
    (h : sub_balance owner value l = .ok l') (inv : NonNegLedger l) : NonNegLedger l' := by
  obtain ⟨r, hf, hle, -, hl'⟩ := sub_balance_ok h
  subst hl'
  intro r' hr'
  rcases mem_modifyRow hr' with h1 | h1
  · rw [h1]
    show (0 : Int) ≤ r.acct.balance.amount - value.amount
    omega
  · exact inv r' h1

theorem add_balance_nonNeg {owner : AccountName} {value : Asset} {ram_payer : AccountName}
    {l l' : Ledger} (h : add_balance owner value ram_payer l = .ok l')
    (hv : 0 ≤ value.amount) (inv : NonNegLedger l) : NonNegLedger l' := by
  rcases add_balance_ok h with ⟨hf, hl'⟩ | ⟨r, hf, -, hl'⟩ <;> subst hl' <;> intro r' hr'
  · rcases List.mem_append.1 hr' with h1 | h1
    · exact inv r' h1
    · have h2 : r' = ⟨owner, ram_payer, ⟨value⟩⟩ := by simpa using h1
      rw [h2]
      exact hv
  · rcases mem_modifyRow hr' with h1 | h1
    · have h0 := inv r (findRow_eq_some hf).2.2
      rw [h1]
      show (0 : Int) ≤ r.acct.balance.amount + value.amount
      omega
    · exact inv r' h1

theorem runOp_nonNeg {o : Op} {l l' : Ledger} (h : runOp o l = .ok l')
    (inv : NonNegLedger l) : NonNegLedger l' := by
  cases o with
  | create issuer m =>
    obtain ⟨-, -, -, hl'⟩ := create_ok h
    subst hl'
    exact inv
  | issue t q memo =>
    obtain ⟨st, -, -, hq, -, -, hadd⟩ := issue_ok h
    exact add_balance_nonNeg hadd (le_of_lt hq) (fun r hr => inv r hr)
  | burn q memo =>
    obtain ⟨st, -, -, -, -, hl'⟩ := burn_ok h
    subst hl'
    exact inv
  | transfer f t q memo =>
    obtain ⟨-, hq, l1, hsub, hadd⟩ := transfer_ok h
    exact add_balance_nonNeg hadd (le_of_lt hq) (sub_balance_nonNeg hsub inv)
  | open_ o s p =>
    obtain ⟨-, hcase⟩ := open_ok h
    rcases hcase with ⟨r, -, hl'⟩ | ⟨-, hl'⟩ <;> subst hl' <;> intro r' hr'
    · exact inv r' hr'
    · rcases List.mem_append.1 hr' with h1 | h1
      · exact inv r' h1
      · have h2 : r' = ⟨o, p, ⟨⟨0, s⟩⟩⟩ := by simpa using h1
        rw [h2]
  | close o s =>
    rcases close_ok h with ⟨-, hl'⟩ | ⟨r, -, -, hl'⟩ <;> subst hl' <;> intro r' hr'
    · exact inv r' hr'
    · exact inv r' (mem_eraseRow hr')

theorem applyOp_nonNeg (o : Op) {l : Ledger} (inv : NonNegLedger l) :
    NonNegLedger (applyOp o l) := by
  cases hr : runOp o l with
  | ok l' =>
    rw [applyOp_of_ok hr]
    exact runOp_nonNeg hr inv
  | error e =>
    rw [applyOp_of_error hr]
    exact inv

theorem applyOps_nonNeg (ops : List Op) {l : Ledger} (inv : NonNegLedger l) :
    NonNegLedger (applyOps ops l) := by
  induction ops generalizing l with
  | nil => exact inv
  | cons o os ih => exact ih (applyOp_nonNeg o inv)

theorem notMem_keys_of_findRow_none {owner : AccountName} {k : SymCode} {rows : List ARow}
    (hf : findRow owner k rows = none) : (owner, k) ∉ rows.map rowKey := by
  intro hmem
  obtain ⟨r, hr, hkey⟩ := List.mem_map.1 hmem
  have := findRow_eq_none.1 hf r hr
  unfold rowKey at hkey
  injection hkey with h1 h2
  exact this h1 h2

theorem sub_balance_nodup {owner : AccountName} {value : Asset} {l l' : Ledger}
    (h : sub_balance owner value l = .ok l') (inv : NodupAccKeys l) : NodupAccKeys l' := by
  obtain ⟨r, hf, -, -, hl'⟩ := sub_balance_ok h
  subst hl'
  have hk : (Account.mk ⟨r.acct.balance.amount - value.amount, r.acct.balance.symbol⟩).primary_key
      = value.symbol.code := by
    show r.acct.balance.symbol.code = value.symbol.code
    rw [(findRow_eq_some hf).2.1.symm]
    rfl
  show ((modifyRow owner value.symbol.code (some owner) _ l.accounts).map rowKey).Nodup
  rw [keys_modifyRow _ hk]
  exact inv

theorem add_balance_nodup {owner : AccountName} {value : Asset} {ram_payer : AccountName}
    {l l' : Ledger} (h : add_balance owner value ram_payer l = .ok l')
    (inv : NodupAccKeys l) : NodupAccKeys l' := by
  rcases add_balance_ok h with ⟨hf, hl'⟩ | ⟨r, hf, -, hl'⟩ <;> subst hl'
  · show ((l.accounts ++ [(⟨owner, ram_payer, ⟨value⟩⟩ : ARow)]).map rowKey).Nodup
    rw [List.map_append]
    rw [List.nodup_append]
    refine ⟨inv, List.nodup_singleton _, ?_⟩
    intro x hx hy
    have hxy : x = (owner, value.symbol.code) := by simpa [rowKey] using hy
    subst hxy
    exact notMem_keys_of_findRow_none hf hx
  · have hk : (Account.mk ⟨r.acct.balance.amount + value.amount, r.acct.balance.symbol⟩).primary_key
        = value.symbol.code := by
      show r.acct.balance.symbol.code = value.symbol.code
      rw [(findRow_eq_some hf).2.1.symm]
      rfl
    show ((modifyRow owner value.symbol.code none _ l.accounts).map rowKey).Nodup
    rw [keys_modifyRow _ hk]
    exact inv

theorem runOp_nodup {o : Op} {l l' : Ledger} (h : runOp o l = .ok l')
    (inv : NodupAccKeys l) : NodupAccKeys l' := by
  cases o with
  | create issuer m =>
    obtain ⟨-, -, -, hl'⟩ := create_ok h
    subst hl'
    exact inv
  | issue t q memo =>
    obtain ⟨st, -, -, -, -, -, hadd⟩ := issue_ok h
    exact add_balance_nodup hadd inv
  | burn q memo =>
    obtain ⟨st, -, -, -, -, hl'⟩ := burn_ok h
    subst hl'
    exact inv
  | transfer f t q memo =>
    obtain ⟨-, -, l1, hsub, hadd⟩ := transfer_ok h
    exact add_balance_nodup hadd (sub_balance_nodup hsub inv)
  | open_ o s p =>
    obtain ⟨-, hcase⟩ := open_ok h
    rcases hcase with ⟨r, -, hl'⟩ | ⟨hf, hl'⟩ <;> subst hl'
    · exact inv
    · show ((l.accounts ++ [(⟨o, p, ⟨⟨0, s⟩⟩⟩ : ARow)]).map rowKey).Nodup
      rw [List.map_append, List.nodup_append]
      refine ⟨inv, List.nodup_singleton _, ?_⟩
      intro x hx hy
      have hxy : x = (o, s.code) := by simpa [rowKey, Account.primary_key] using hy
      subst hxy
      exact notMem_keys_of_findRow_none hf hx
  | close o s =>
    rcases close_ok h with ⟨-, hl'⟩ | ⟨r, -, -, hl'⟩ <;> subst hl'
    · exact inv
    · exact (keys_eraseRow_sublist l.accounts).nodup inv

theorem applyOp_nodup (o : Op) {l : Ledger} (inv : NodupAccKeys l) :
    NodupAccKeys (applyOp o l) := by
  cases hr : runOp o l with
  | ok l' =>
    rw [applyOp_of_ok hr]
    exact runOp_nodup hr inv
  | error e =>
    rw [applyOp_of_error hr]
    exact inv

theorem applyOps_nodup (ops : List Op) {l : Ledger} (inv : NodupAccKeys l) :
    NodupAccKeys (applyOps ops l) := by
  induction ops generalizing l with
  | nil => exact inv
  | cons o os ih => exact ih (applyOp_nodup o inv)

theorem supplyOf_some {l : Ledger} {c : SymCode} {st : CurrencyStats}
    (h : findStat c l.stats = some st) : supplyOf l c = st.supply.amount := by
  unfold supplyOf
  rw [h]

theorem supplyOf_none {l : Ledger} {c : SymCode}
    (h : findStat c l.stats = none) : supplyOf l c = 0 := by
  unfold supplyOf
  rw [h]

theorem supplyOf_congr {l l' : Ledger} {c : SymCode}
    (h : findStat c l'.stats = findStat c l.stats) : supplyOf l' c = supplyOf l c := by
  unfold supplyOf
  rw [h]

theorem findStat_append_ne {c : SymCode} {rows : List CurrencyStats} {s : CurrencyStats}
    (hne : s.primary_key ≠ c) :
    findStat c (rows ++ [s]) = findStat c rows := by
  cases hf : findStat c rows with
  | some st => exact findStat_append_of_some hf
  | none =>
    have hcond : ¬((s.primary_key == c) = true) := by simpa using hne
    rw [findStat_append_of_none hf, if_neg hcond]

theorem sub_balance_delta {owner : AccountName} {value : Asset} {l l' : Ledger}
    (h : sub_balance owner value l = .ok l') :
    l'.stats = l.stats ∧
      ∀ c, sumBal c l'.accounts =
        sumBal c l.accounts - (if (value.symbol.code == c) = true then value.amount else 0) := by
  obtain ⟨r, hf, -, -, hl'⟩ := sub_balance_ok h
  subst hl'
  refine ⟨rfl, fun c => ?_⟩
  have hk : (Account.mk ⟨r.acct.balance.amount - value.amount, r.acct.balance.symbol⟩).primary_key
      = value.symbol.code := by
    show r.acct.balance.symbol.code = value.symbol.code
    rw [(findRow_eq_some hf).2.1.symm]
    rfl
  rw [sumBal_modifyRow c hf hk]
  by_cases hc : (value.symbol.code == c) = true
  · rw [if_pos hc, if_pos hc]
    show sumBal c l.accounts + (r.acct.balance.amount - value.amount - r.acct.balance.amount) =
      sumBal c l.accounts - value.amount
    ring
  · rw [if_neg hc, if_neg hc]
    ring

theorem add_balance_delta {owner : AccountName} {value : Asset} {ram_payer : AccountName}
    {l l' : Ledger} (h : add_balance owner value ram_payer l = .ok l') :
    l'.stats = l.stats ∧
      ∀ c, sumBal c l'.accounts =
        sumBal c l.accounts + (if (value.symbol.code == c) = true then value.amount else 0) := by
  rcases add_balance_ok h with ⟨hf, hl'⟩ | ⟨r, hf, -, hl'⟩ <;> subst hl' <;>
    refine ⟨rfl, fun c => ?_⟩
  · rw [sumBal_append, sumBal_cons, sumBal_nil]
    show sumBal c l.accounts +
        ((if (value.symbol.code == c) = true then value.amount else 0) + 0) = _
    ring
  · have hk : (Account.mk ⟨r.acct.balance.amount + value.amount, r.acct.balance.symbol⟩).primary_key
        = value.symbol.code := by
      show r.acct.balance.symbol.code = value.symbol.code
      rw [(findRow_eq_some hf).2.1.symm]
      rfl
    rw [sumBal_modifyRow c hf hk]
    by_cases hc : (value.symbol.code == c) = true
    · rw [if_pos hc, if_pos hc]
      show sumBal c l.accounts + (r.acct.balance.amount + value.amount - r.acct.balance.amount) =
        sumBal c l.accounts + value.amount
      ring
    · rw [if_neg hc, if_neg hc]

theorem runOp_conserve {o : Op} {l l' : Ledger} (hnb : o.isBurn = false)
    (h : runOp o l = .ok l') (inv : Conserves l) : Conserves l' := by
  cases o with
  | burn q memo => simp [Op.isBurn] at hnb
  | create issuer m =>
    obtain ⟨-, -, hf, hl'⟩ := create_ok h
    subst hl'
    intro c
    by_cases hc : m.symbol.code = c
    · subst hc
      have hnew : findStat m.symbol.code
          (l.stats ++ [(⟨⟨0, m.symbol⟩, m, issuer⟩ : CurrencyStats)]) =
          some ⟨⟨0, m.symbol⟩, m, issuer⟩ := by
        rw [findStat_append_of_none hf, if_pos (by simp [CurrencyStats.primary_key])]
      rw [supplyOf_some hnew]
      show sumBal m.symbol.code l.accounts = 0
      rw [inv m.symbol.code, supplyOf_none hf]
    · have hs : findStat c (l.stats ++ [(⟨⟨0, m.symbol⟩, m, issuer⟩ : CurrencyStats)]) =
          findStat c l.stats :=
        findStat_append_ne (by simpa [CurrencyStats.primary_key] using hc)
      rw [supplyOf_congr hs]
      exact inv c
  | issue t q memo =>
    obtain ⟨st, hf, -, hq, hsym, -, hadd⟩ := issue_ok h
    obtain ⟨hstats, hdelta⟩ := add_balance_delta hadd
    have hkey : st.primary_key = q.symbol.code := (findStat_eq_some hf).1
    have hnewkey : ({ st with supply := ⟨st.supply.amount + q.amount, st.supply.symbol⟩ } :
        CurrencyStats).primary_key = q.symbol.code := by
      show st.supply.symbol.code = q.symbol.code
      rw [← hkey]
      rfl
    intro c
    by_cases hc : q.symbol.code = c
    · subst hc
      have hs' : findStat q.symbol.code l'.stats =
          some { st with supply := ⟨st.supply.amount + q.amount, st.supply.symbol⟩ } := by
        rw [hstats]
        exact findStat_modifyStat_self hf hnewkey
      rw [supplyOf_some hs', hdelta q.symbol.code, if_pos (by simp)]
      have h0 : sumBal q.symbol.code l.accounts = st.supply.amount := by
        rw [inv q.symbol.code, supplyOf_some hf]
      show sumBal q.symbol.code l.accounts + q.amount = st.supply.amount + q.amount
      omega
    · have hs' : findStat c l'.stats = findStat c l.stats := by
        rw [hstats]
        exact findStat_modifyStat_other l.stats hnewkey (fun e => hc e.symm)
      rw [supplyOf_congr hs', hdelta c, if_neg (by simpa using hc)]
      show sumBal c l.accounts + 0 = supplyOf l c
      rw [add_zero]
      exact inv c
  | transfer f t q memo =>
    obtain ⟨-, -, l1, hsub, hadd⟩ := transfer_ok h
    obtain ⟨hst1, hd1⟩ := sub_balance_delta hsub
    obtain ⟨hst2, hd2⟩ := add_balance_delta hadd
    intro c
    rw [hd2 c, hd1 c]
    have hsupp : supplyOf l' c = supplyOf l c := supplyOf_congr (by rw [hst2, hst1])
    rw [hsupp]
    have h0 := inv c
    by_cases hc : (q.symbol.code == c) = true
    · rw [if_pos hc]
      omega
    · rw [if_neg hc]
      omega
  | open_ o s p =>
    obtain ⟨⟨st, hfstat⟩, hcase⟩ := open_ok h
    rcases hcase with ⟨r, -, hl'⟩ | ⟨hf, hl'⟩ <;> subst hl'
    · exact inv
    · intro c
      show sumBal c (l.accounts ++ [(⟨o, p, ⟨⟨0, s⟩⟩⟩ : ARow)]) = _
      rw [sumBal_append]
      have h0 : sumBal c [(⟨o, p, ⟨⟨0, s⟩⟩⟩ : ARow)] = 0 := by
        rw [sumBal_cons, sumBal_nil]
        simp
      rw [h0, add_zero]
      exact inv c
  | close o s =>
    rcases close_ok h with ⟨-, hl'⟩ | ⟨r, hr, hz, hl'⟩ <;> subst hl'
    · exact inv
    · intro c
      show sumBal c (eraseRow o s.code l.accounts) = _
      rw [sumBal_eraseRow c hr, hz]
      simp only [ite_self, sub_zero]
      exact inv c

theorem applyOp_conserve {o : Op} {l : Ledger} (hnb : o.isBurn = false)
    (inv : Conserves l) : Conserves (applyOp o l) := by
  cases hr : runOp o l with
  | ok l' =>
    rw [applyOp_of_ok hr]
    exact runOp_conserve hnb hr inv
  | error e =>
    rw [applyOp_of_error hr]
    exact inv

theorem applyOps_conserve {ops : List Op} {l : Ledger} (hnb : ∀ o ∈ ops, o.isBurn = false)
    (inv : Conserves l) : Conserves (applyOps ops l) := by
  induction ops generalizing l with
  | nil => exact inv
  | cons o os ih =>
    exact ih (fun o' ho' => hnb o' (List.mem_cons_of_mem _ ho'))
      (applyOp_conserve (hnb o (List.mem_cons_self _ _)) inv)

theorem maxAmount_pos : (0 : Int) < maxAmount := by
  norm_num [maxAmount]

theorem addAsset_error {x v : Asset} {e : String} (h : addAsset x v = .error e) :
    e = "attempt to add asset with different symbol" ∨
      e = "addition underflow" ∨ e = "addition overflow" := by
  unfold addAsset at h
  by_cases h1 : v.symbol ≠ x.symbol
  · rw [if_pos h1] at h
    injection h with h
    exact Or.inl h.symm
  rw [if_neg h1] at h
  by_cases h2 : x.amount + v.amount < -maxAmount
  · rw [if_pos h2] at h
    injection h with h
    exact Or.inr (Or.inl h.symm)
  rw [if_neg h2] at h
  by_cases h3 : maxAmount < x.amount + v.amount
  · rw [if_pos h3] at h
    injection h with h
    exact Or.inr (Or.inr h.symm)
  rw [if_neg h3] at h
  exact absurd h (by simp)

theorem sub_balance_none {owner : AccountName} {value : Asset} {l : Ledger}
    (h : findRow owner value.symbol.code l.accounts = none) :
    sub_balance owner value l = .error "no balance object found" := by
  unfold sub_balance
  rw [h]

theorem sub_balance_overdrawn {owner : AccountName} {value : Asset} {l : Ledger} {r : ARow}
    (hr : findRow owner value.symbol.code l.accounts = some r)
    (hlt : r.acct.balance.amount < value.amount) :
    sub_balance owner value l = .error "overdrawn balance" := by
  unfold sub_balance
  rw [hr]
  simp only []
  rw [if_pos hlt]

theorem sub_balance_mismatch {owner : AccountName} {value : Asset} {l : Ledger} {r : ARow}
    (hr : findRow owner value.symbol.code l.accounts = some r)
    (hle : value.amount ≤ r.acct.balance.amount)
    (hsym : value.symbol ≠ r.acct.balance.symbol) :
    sub_balance owner value l = .error "attempt to subtract asset with different symbol" := by
  unfold sub_balance
  rw [hr]
  simp only []
  rw [if_neg (not_lt.2 hle)]
  have hsub : subAsset r.acct.balance value = .error "attempt to subtract asset with different symbol" := by
    unfold subAsset
    rw [if_pos hsym]
  rw [hsub]

theorem sub_balance_eval {owner : AccountName} {value : Asset} {l : Ledger} {r : ARow}
    (hr : findRow owner value.symbol.code l.accounts = some r)
    (hle : value.amount ≤ r.acct.balance.amount)
    (hsym : value.symbol = r.acct.balance.symbol)
    (hub : r.acct.balance.amount - value.amount ≤ maxAmount) :
    sub_balance owner value l = .ok { l with accounts :=
      (modifyRow owner value.symbol.code (some owner)
        ⟨⟨r.acct.balance.amount - value.amount, r.acct.balance.symbol⟩⟩ l.accounts) } := by
  have hlow : -maxAmount ≤ r.acct.balance.amount - value.amount := by
    have := maxAmount_pos
    omega
  have hsub : subAsset r.acct.balance value =
      .ok ⟨r.acct.balance.amount - value.amount, r.acct.balance.symbol⟩ := by
    unfold subAsset
    rw [if_neg (not_not_intro hsym), if_neg (not_lt.2 hlow), if_neg (not_lt.2 hub)]
  unfold sub_balance
  rw [hr]
  simp only []
  rw [if_neg (not_lt.2 hle), hsub]

theorem add_balance_emplace {owner : AccountName} {value : Asset} {ram_payer : AccountName}
    {l : Ledger} (h : findRow owner value.symbol.code l.accounts = none) :
    add_balance owner value ram_payer l =
      .ok { l with accounts := l.accounts ++ [⟨owner, ram_payer, ⟨value⟩⟩] } := by
  unfold add_balance
  rw [h]

theorem add_balance_modify {owner : AccountName} {value : Asset} {ram_payer : AccountName}
    {l : Ledger} {r : ARow}
    (hr : findRow owner value.symbol.code l.accounts = some r)
    (hsym : value.symbol = r.acct.balance.symbol)
    (hlow : -maxAmount ≤ r.acct.balance.amount + value.amount)
    (hub : r.acct.balance.amount + value.amount ≤ maxAmount) :
    add_balance owner value ram_payer l = .ok { l with accounts :=
      (modifyRow owner value.symbol.code none
        ⟨⟨r.acct.balance.amount + value.amount, r.acct.balance.symbol⟩⟩ l.accounts) } := by
  have hadd : addAsset r.acct.balance value =
      .ok ⟨r.acct.balance.amount + value.amount, r.acct.balance.symbol⟩ := by
    unfold addAsset
    rw [if_neg (not_not_intro hsym), if_neg (not_lt.2 hlow), if_neg (not_lt.2 hub)]
  unfold add_balance
  rw [hr]
  simp only []
  rw [hadd]

theorem add_balance_no_overdraft {owner : AccountName} {value : Asset} {ram_payer : AccountName}
    {l : Ledger} {e : String} (h : add_balance owner value ram_payer l = .error e) :
    e ≠ "overdrawn balance" := by
  unfold add_balance at h
  split at h
  · exact absurd h (by simp)
  split at h
  · rename_i e0 ha
    injection h with h
    subst h
    rcases addAsset_error ha with h1 | h1 | h1 <;> rw [h1] <;> decide
  · exact absurd h (by simp)

theorem get_balance_eval {l : Ledger} {owner : AccountName} {c : SymCode} {r : ARow}
    (h : findRow owner c l.accounts = some r) : get_balance l owner c = .ok r.acct.balance := by
  unfold get_balance
  rw [h]

theorem findRow_append_other {o : AccountName} {k : SymCode} {o' : AccountName} {k' : SymCode}
    {rows : List ARow} {r : ARow}
    (hrk : r.owner = o ∧ r.acct.primary_key = k) (hne : ¬(o' = o ∧ k' = k)) :
    findRow o' k' (rows ++ [r]) = findRow o' k' rows := by
  cases hf : findRow o' k' rows with
  | some x => exact findRow_append_of_some hf
  | none =>
    have hcond : ¬((r.owner == o' && r.acct.primary_key == k') = true) := by
      simp only [Bool.and_eq_true, beq_iff_eq]
      rintro ⟨e1, e2⟩
      exact hne ⟨by rw [← e1, hrk.1], by rw [← e2, hrk.2]⟩
    rw [findRow_append_of_none hf, if_neg hcond]

/-- **C1, counterexample**: conservation as stated is false on this code.
After `create(1, 1000.00)`, `issue(1, 100.00)`, `burn(30.00)` the Account
balances for the symbol code sum to 10000 units while the Supply Record's
supply is 7000 units: `burn` is supply-only bookkeeping and debits no
Account Record. -/
theorem conservation_claim_false :
    sumBal 7 (applyOps [Op.create 1 ⟨100000, ⟨7, 2⟩⟩, Op.issue 1 ⟨10000, ⟨7, 2⟩⟩ "",
        Op.burn ⟨3000, ⟨7, 2⟩⟩ ""] emptyLedger).accounts ≠
      supplyOf (applyOps [Op.create 1 ⟨100000, ⟨7, 2⟩⟩, Op.issue 1 ⟨10000, ⟨7, 2⟩⟩ "",
        Op.burn ⟨3000, ⟨7, 2⟩⟩ ""] emptyLedger) 7 := by
  decide

/-- **C1, amended**: for every sequence of ledger operations starting from
the empty ledger that contains no `burn`, after each operation the sum of
all Account balances for a symbol code equals the supply recorded for it
(0 when no Supply Record exists). -/
theorem conservation_without_burn (ops : List Op) (hnb : ∀ o ∈ ops, o.isBurn = false)
    (c : SymCode) :
    sumBal c (applyOps ops emptyLedger).accounts = supplyOf (applyOps ops emptyLedger) c :=
  applyOps_conserve hnb (show Conserves emptyLedger from fun _ => rfl) c

/-- Witness for `conservation_without_burn` at a concrete burn-free run. -/
theorem conservation_without_burn_witness :
    sumBal 7 (applyOps [Op.create 1 ⟨100000, ⟨7, 2⟩⟩, Op.issue 1 ⟨10000, ⟨7, 2⟩⟩ "",
        Op.transfer 1 2 ⟨3000, ⟨7, 2⟩⟩ ""] emptyLedger).accounts =
      supplyOf (applyOps [Op.create 1 ⟨100000, ⟨7, 2⟩⟩, Op.issue 1 ⟨10000, ⟨7, 2⟩⟩ "",
        Op.transfer 1 2 ⟨3000, ⟨7, 2⟩⟩ ""] emptyLedger) 7 :=
  conservation_without_burn
    [Op.create 1 ⟨100000, ⟨7, 2⟩⟩, Op.issue 1 ⟨10000, ⟨7, 2⟩⟩ "",
      Op.transfer 1 2 ⟨3000, ⟨7, 2⟩⟩ ""] (by decide) 7

/-- **C2**: every Account Record in a ledger reachable from the empty
ledger by any sequence of operations has `balance.units ≥ 0`. -/
theorem balances_nonNegative (ops : List Op) (r : ARow)
    (hr : r ∈ (applyOps ops emptyLedger).accounts) : 0 ≤ r.acct.balance.amount :=
  applyOps_nonNeg ops (fun _ hx => absurd hx (List.not_mem_nil _)) r hr

/-- Witness for `balances_nonNegative` at a concrete reachable record. -/
theorem balances_nonNegative_witness :
    0 ≤ (ARow.mk 1 1 ⟨⟨10000, ⟨7, 2⟩⟩⟩).acct.balance.amount :=
  balances_nonNegative [Op.create 1 ⟨100000, ⟨7, 2⟩⟩, Op.issue 1 ⟨10000, ⟨7, 2⟩⟩ ""]
    ⟨1, 1, ⟨⟨10000, ⟨7, 2⟩⟩⟩⟩ (by decide)

/-- **C3**: a failing `transfer` leaves the ledger (in particular the
recipient's balance) unchanged, and when the debit step fails while the
preliminary argument checks pass, the whole transfer fails with exactly the
debit's error — the credit step never executes. -/
theorem transfer_atomicity (f t : AccountName) (q : Asset) (memo : String) (l : Ledger)
    (e : String) (h : transfer f t q memo l = .error e) :
    applyOp (Op.transfer f t q memo) l = l ∧
    get_balance (applyOp (Op.transfer f t q memo) l) t q.symbol.code =
      get_balance l t q.symbol.code ∧
    (∀ e0, sub_balance f q l = .error e0 → f ≠ t → memo.length ≤ 256 →
      q.amountWithinRange = true → 0 < q.amount → e = e0) := by
  have h1 : applyOp (Op.transfer f t q memo) l = l := applyOp_of_error h
  refine ⟨h1, by rw [h1], ?_⟩
  intro e0 hsub hne hm hrange hq
  unfold transfer at h
  rw [if_neg hne, if_neg (not_lt.2 hm), if_neg (by simp [hrange]),
    if_neg (not_le.2 hq), hsub] at h
  have h' : (Except.error e0 : Except String Ledger) = .error e := h
  injection h' with h'
  exact h'.symm

/-- Witness for `transfer_atomicity` at a concrete failing transfer. -/
theorem transfer_atomicity_witness :
    applyOp (Op.transfer 1 2 ⟨5, ⟨7, 2⟩⟩ "") emptyLedger = emptyLedger ∧
      "no balance object found" = "no balance object found" :=
  ⟨(transfer_atomicity 1 2 ⟨5, ⟨7, 2⟩⟩ "" emptyLedger "no balance object found" rfl).1,
   (transfer_atomicity 1 2 ⟨5, ⟨7, 2⟩⟩ "" emptyLedger "no balance object found" rfl).2.2
     "no balance object found" rfl (by decide) (by decide) (by decide) (by decide)⟩

/-- **C4, counterexample**: with an Account Record present for the symbol
code and a balance at least the requested amount, `sub_balance` can still
fail (symbol precision mismatch) instead of decreasing the balance, so the
claim's three-way contract is incomplete. -/
theorem sub_balance_claim_false :
    findRow 1 7 (Ledger.mk [] [⟨1, 1, ⟨⟨100, ⟨7, 2⟩⟩⟩⟩]).accounts =
      some ⟨1, 1, ⟨⟨100, ⟨7, 2⟩⟩⟩⟩ ∧
    (Asset.mk 10 ⟨7, 3⟩).amount ≤ (Account.mk ⟨100, ⟨7, 2⟩⟩).balance.amount ∧
    sub_balance 1 ⟨10, ⟨7, 3⟩⟩ (Ledger.mk [] [⟨1, 1, ⟨⟨100, ⟨7, 2⟩⟩⟩⟩]) =
      .error "attempt to subtract asset with different symbol" :=
  ⟨rfl, by decide, rfl⟩

/-- **C4, amended**: `sub_balance` fails with `NoBalanceRecord` when no row
exists for (owner, symbol code); fails with `Overdrawn` when the row's
balance is smaller than the amount; fails with a symbol-mismatch abort when
the row's symbol (code and precision) differs from the amount's; and
otherwise — identical symbols and an in-range difference — decreases
exactly that row's balance by the amount, leaving every other row and the
supply table unchanged. -/
theorem sub_balance_contract (owner : AccountName) (value : Asset) (l : Ledger) :
    (findRow owner value.symbol.code l.accounts = none →
      sub_balance owner value l = .error "no balance object found") ∧
    (∀ r, findRow owner value.symbol.code l.accounts = some r →
      r.acct.balance.amount < value.amount →
      sub_balance owner value l = .error "overdrawn balance") ∧
    (∀ r, findRow owner value.symbol.code l.accounts = some r →
      value.amount ≤ r.acct.balance.amount → value.symbol ≠ r.acct.balance.symbol →
      sub_balance owner value l = .error "attempt to subtract asset with different symbol") ∧
    (∀ r, findRow owner value.symbol.code l.accounts = some r →
      value.amount ≤ r.acct.balance.amount → value.symbol = r.acct.balance.symbol →
      r.acct.balance.amount - value.amount ≤ maxAmount →
      ∃ l', sub_balance owner value l = .ok l' ∧
        get_balance l' owner value.symbol.code =
          .ok ⟨r.acct.balance.amount - value.amount, r.acct.balance.symbol⟩ ∧
        (∀ o' k', ¬(o' = owner ∧ k' = value.symbol.code) →
          findRow o' k' l'.accounts = findRow o' k' l.accounts) ∧
        l'.stats = l.stats) := by
  refine ⟨sub_balance_none, fun r hr hlt => sub_balance_overdrawn hr hlt,
    fun r hr hle hsym => sub_balance_mismatch hr hle hsym, ?_⟩
  intro r hr hle hsym hub
  have hk : (Account.mk ⟨r.acct.balance.amount - value.amount, r.acct.balance.symbol⟩).primary_key
      = value.symbol.code := by
    show r.acct.balance.symbol.code = value.symbol.code
    rw [(findRow_eq_some hr).2.1.symm]
    rfl
  refine ⟨_, sub_balance_eval hr hle hsym hub, ?_, ?_, rfl⟩
  · have hfr : findRow owner value.symbol.code
        (({ l with accounts := (modifyRow owner value.symbol.code (some owner)
          ⟨⟨r.acct.balance.amount - value.amount, r.acct.balance.symbol⟩⟩ l.accounts) } :
          Ledger)).accounts =
        some ⟨r.owner, (some owner).getD r.payer,
          ⟨⟨r.acct.balance.amount - value.amount, r.acct.balance.symbol⟩⟩⟩ :=
      findRow_modifyRow_self hr hk
    rw [get_balance_eval hfr]
  · exact fun o' k' hne => findRow_modifyRow_other l.accounts hk hne

/-- Witness for `sub_balance_contract` at a concrete successful debit. -/
theorem sub_balance_contract_witness :
    ∃ l', sub_balance 1 ⟨30, ⟨7, 2⟩⟩ (Ledger.mk [] [⟨1, 1, ⟨⟨100, ⟨7, 2⟩⟩⟩⟩]) = .ok l' ∧
      get_balance l' 1 7 = .ok ⟨70, ⟨7, 2⟩⟩ ∧
      (∀ o' k', ¬(o' = 1 ∧ k' = 7) →
        findRow o' k' l'.accounts =
          findRow o' k' (Ledger.mk [] [⟨1, 1, ⟨⟨100, ⟨7, 2⟩⟩⟩⟩]).accounts) ∧
      l'.stats = (Ledger.mk [] [⟨1, 1, ⟨⟨100, ⟨7, 2⟩⟩⟩⟩]).stats :=
  (sub_balance_contract 1 ⟨30, ⟨7, 2⟩⟩ (Ledger.mk [] [⟨1, 1, ⟨⟨100, ⟨7, 2⟩⟩⟩⟩])).2.2.2
    ⟨1, 1, ⟨⟨100, ⟨7, 2⟩⟩⟩⟩ rfl (by decide) rfl (by decide)

/-- **C5, counterexample**: `add_balance` can fail even though the amount
itself is valid — a credit onto an existing record can overflow the
representable range — so "no precondition beyond the amount being valid" is
too strong. -/
theorem add_balance_claim_false :
    (Asset.mk 1 ⟨7, 2⟩).amountWithinRange = true ∧
    findRow 1 7 (Ledger.mk [] [⟨1, 1, ⟨⟨maxAmount, ⟨7, 2⟩⟩⟩⟩]).accounts =
      some ⟨1, 1, ⟨⟨maxAmount, ⟨7, 2⟩⟩⟩⟩ ∧
    add_balance 1 ⟨1, ⟨7, 2⟩⟩ 1 (Ledger.mk [] [⟨1, 1, ⟨⟨maxAmount, ⟨7, 2⟩⟩⟩⟩]) =
      .error "addition overflow" :=
  ⟨by decide, rfl, rfl⟩

/-- **C5, amended**: `add_balance` creates a fresh row holding exactly the
amount, with storage attributed to the payer, when no row exists for
(owner, symbol code); when a row with the same symbol exists and the sum is
in range it increases that row's balance by the amount; other rows and the
supply table are never touched; and it never fails with the overdraft
error. -/
theorem add_balance_contract (owner : AccountName) (value : Asset) (payer : AccountName)
    (l : Ledger) :
    (findRow owner value.symbol.code l.accounts = none →
      ∃ l', add_balance owner value payer l = .ok l' ∧
        findRow owner value.symbol.code l'.accounts = some ⟨owner, payer, ⟨value⟩⟩ ∧
        get_balance l' owner value.symbol.code = .ok value ∧
        (∀ o' k', ¬(o' = owner ∧ k' = value.symbol.code) →
          findRow o' k' l'.accounts = findRow o' k' l.accounts) ∧
        l'.stats = l.stats) ∧
    (∀ r, findRow owner value.symbol.code l.accounts = some r →
      value.symbol = r.acct.balance.symbol →
      -maxAmount ≤ r.acct.balance.amount + value.amount →
      r.acct.balance.amount + value.amount ≤ maxAmount →
      ∃ l', add_balance owner value payer l = .ok l' ∧
        get_balance l' owner value.symbol.code =
          .ok ⟨r.acct.balance.amount + value.amount, r.acct.balance.symbol⟩ ∧
        (∀ o' k', ¬(o' = owner ∧ k' = value.symbol.code) →
          findRow o' k' l'.accounts = findRow o' k' l.accounts) ∧
        l'.stats = l.stats) ∧
    (∀ e, add_balance owner value payer l = .error e → e ≠ "overdrawn balance") := by
  refine ⟨?_, ?_, fun e h => add_balance_no_overdraft h⟩
  · intro hnone
    have hrowpred : ((ARow.mk owner payer ⟨value⟩).owner == owner &&
        (ARow.mk owner payer ⟨value⟩).acct.primary_key == value.symbol.code) = true := by
      simp [Account.primary_key]
    have hfr : findRow owner value.symbol.code
        (({ l with accounts := l.accounts ++ [⟨owner, payer, ⟨value⟩⟩] } : Ledger)).accounts =
        some ⟨owner, payer, ⟨value⟩⟩ := by
      show findRow owner value.symbol.code (l.accounts ++ [⟨owner, payer, ⟨value⟩⟩]) = _
      rw [findRow_append_of_none hnone, if_pos hrowpred]
    refine ⟨_, add_balance_emplace hnone, hfr, ?_, ?_, rfl⟩
    · rw [get_balance_eval hfr]
    · exact fun o' k' hne => findRow_append_other ⟨rfl, rfl⟩ hne
  · intro r hr hsym hlow hub
    have hk : (Account.mk ⟨r.acct.balance.amount + value.amount, r.acct.balance.symbol⟩).primary_key
        = value.symbol.code := by
      show r.acct.balance.symbol.code = value.symbol.code
      rw [(findRow_eq_some hr).2.1.symm]
      rfl
    refine ⟨_, add_balance_modify hr hsym hlow hub, ?_, ?_, rfl⟩
    · have hfr : findRow owner value.symbol.code
          (({ l with accounts := (modifyRow owner value.symbol.code none
            ⟨⟨r.acct.balance.amount + value.amount, r.acct.balance.symbol⟩⟩ l.accounts) } :
            Ledger)).accounts =
          some ⟨r.owner, Option.getD none r.payer,
            ⟨⟨r.acct.balance.amount + value.amount, r.acct.balance.symbol⟩⟩⟩ :=
        findRow_modifyRow_self hr hk
      rw [get_balance_eval hfr]
    · exact fun o' k' hne => findRow_modifyRow_other l.accounts hk hne

/-- Witness for `add_balance_contract` at a concrete auto-vivifying credit. -/
theorem add_balance_contract_witness :
    ∃ l', add_balance 1 ⟨500, ⟨7, 2⟩⟩ 9 emptyLedger = .ok l' ∧
      findRow 1 7 l'.accounts = some ⟨1, 9, ⟨⟨500, ⟨7, 2⟩⟩⟩⟩ ∧
      get_balance l' 1 7 = .ok ⟨500, ⟨7, 2⟩⟩ ∧
      (∀ o' k', ¬(o' = 1 ∧ k' = 7) →
        findRow o' k' l'.accounts = findRow o' k' emptyLedger.accounts) ∧
      l'.stats = emptyLedger.stats :=
  (add_balance_contract 1 ⟨500, ⟨7, 2⟩⟩ 9 emptyLedger).1 rfl

/-- **C6**: a successful `burn` modifies no Account Record, decreases the
recorded supply by exactly the burned units, and leaves it non-negative;
burning more than the circulating supply cannot succeed. -/
theorem burn_supply_only (q : Asset) (memo : String) (l l' : Ledger) :
    (burn q memo l = .ok l' →
      l'.accounts = l.accounts ∧
      supplyOf l' q.symbol.code = supplyOf l q.symbol.code - q.amount ∧
      0 ≤ supplyOf l' q.symbol.code) ∧
    (∀ st, findStat q.symbol.code l.stats = some st → st.supply.amount < q.amount →
      burn q memo l ≠ .ok l') := by
  constructor
  · intro h
    obtain ⟨st, hf, hq, hsym, hle, hl'⟩ := burn_ok h
    subst hl'
    have hkey : st.primary_key = q.symbol.code := (findStat_eq_some hf).1
    have hnewkey : ({ st with supply := ⟨st.supply.amount - q.amount, st.supply.symbol⟩ } :
        CurrencyStats).primary_key = q.symbol.code := by
      show st.supply.symbol.code = q.symbol.code
      rw [← hkey]
      rfl
    have hs' : findStat q.symbol.code
        (({ l with stats := (modifyStat q.symbol.code
          { st with supply := ⟨st.supply.amount - q.amount, st.supply.symbol⟩ } l.stats) } :
          Ledger)).stats =
        some { st with supply := ⟨st.supply.amount - q.amount, st.supply.symbol⟩ } :=
      findStat_modifyStat_self hf hnewkey
    refine ⟨rfl, ?_, ?_⟩
    · rw [supplyOf_some hs', supplyOf_some hf]
    · rw [supplyOf_some hs']
      show 0 ≤ st.supply.amount - q.amount
      omega
  · intro st hf hlt h
    obtain ⟨st2, hf2, -, -, hle2, -⟩ := burn_ok h
    rw [hf] at hf2
    injection hf2 with hf2
    subst hf2
    omega

/-- Witness for `burn_supply_only` at a concrete successful burn. -/
theorem burn_supply_only_witness :
    (Ledger.mk [⟨⟨40, ⟨7, 2⟩⟩, ⟨100000, ⟨7, 2⟩⟩, 1⟩] []).accounts =
      (Ledger.mk [⟨⟨50, ⟨7, 2⟩⟩, ⟨100000, ⟨7, 2⟩⟩, 1⟩] []).accounts ∧
    supplyOf (Ledger.mk [⟨⟨40, ⟨7, 2⟩⟩, ⟨100000, ⟨7, 2⟩⟩, 1⟩] []) 7 =
      supplyOf (Ledger.mk [⟨⟨50, ⟨7, 2⟩⟩, ⟨100000, ⟨7, 2⟩⟩, 1⟩] []) 7 - 10 ∧
    0 ≤ supplyOf (Ledger.mk [⟨⟨40, ⟨7, 2⟩⟩, ⟨100000, ⟨7, 2⟩⟩, 1⟩] []) 7 :=
  (burn_supply_only ⟨10, ⟨7, 2⟩⟩ "" (Ledger.mk [⟨⟨50, ⟨7, 2⟩⟩, ⟨100000, ⟨7, 2⟩⟩, 1⟩] [])
    (Ledger.mk [⟨⟨40, ⟨7, 2⟩⟩, ⟨100000, ⟨7, 2⟩⟩, 1⟩] [])).1 rfl

/-- **C7**: when a Supply Record exists for the symbol, `open` succeeds;
if no Account Record existed, it creates one with zero balance, and if one
existed the call is a no-op; a second `open` right after the first returns
the same ledger with no error. -/
theorem open_idempotent (owner : AccountName) (sym : Symbol) (payer : AccountName) (l : Ledger)
    (hstat : ∃ st, findStat sym.code l.stats = some st) :
    ∃ l', open_ owner sym payer l = .ok l' ∧
      open_ owner sym payer l' = .ok l' ∧
      (findRow owner sym.code l.accounts = none →
        get_balance l' owner sym.code = .ok ⟨0, sym⟩) ∧
      (∀ r, findRow owner sym.code l.accounts = some r → l' = l) := by
  obtain ⟨st, hst⟩ := hstat
  cases hr : findRow owner sym.code l.accounts with
  | some r =>
    refine ⟨l, ?_, ?_, ?_, fun _ _ => rfl⟩
    · unfold open_
      rw [hst, hr]
    · unfold open_
      rw [hst, hr]
    · intro h
      exact absurd h (by simp)
  | none =>
    have hrownew : ((ARow.mk owner payer ⟨⟨0, sym⟩⟩).owner == owner &&
        (ARow.mk owner payer ⟨⟨0, sym⟩⟩).acct.primary_key == sym.code) = true := by
      simp [Account.primary_key]
    have hfr : findRow owner sym.code
        (({ l with accounts := l.accounts ++ [⟨owner, payer, ⟨⟨0, sym⟩⟩⟩] } : Ledger)).accounts =
        some ⟨owner, payer, ⟨⟨0, sym⟩⟩⟩ := by
      show findRow owner sym.code (l.accounts ++ [⟨owner, payer, ⟨⟨0, sym⟩⟩⟩]) = _
      rw [findRow_append_of_none hr, if_pos hrownew]
    have hst' : findStat sym.code
        (({ l with accounts := l.accounts ++ [⟨owner, payer, ⟨⟨0, sym⟩⟩⟩] } : Ledger)).stats =
        some st := hst
    refine ⟨{ l with accounts := l.accounts ++ [⟨owner, payer, ⟨⟨0, sym⟩⟩⟩] }, ?_, ?_, ?_, ?_⟩
    · unfold open_
      rw [hst, hr]
    · unfold open_
      rw [hst', hfr]
    · intro _
      rw [get_balance_eval hfr]
    · intro r' hr'
      exact absurd hr' (by simp)

/-- Witness for `open_idempotent` at a concrete first-time open. -/
theorem open_idempotent_witness :
    ∃ l', open_ 3 ⟨7, 2⟩ 1 (Ledger.mk [⟨⟨0, ⟨7, 2⟩⟩, ⟨100000, ⟨7, 2⟩⟩, 1⟩] []) = .ok l' ∧
      open_ 3 ⟨7, 2⟩ 1 l' = .ok l' ∧
      (findRow 3 7 (Ledger.mk [⟨⟨0, ⟨7, 2⟩⟩, ⟨100000, ⟨7, 2⟩⟩, 1⟩] []).accounts = none →
        get_balance l' 3 7 = .ok ⟨0, ⟨7, 2⟩⟩) ∧
      (∀ r, findRow 3 7 (Ledger.mk [⟨⟨0, ⟨7, 2⟩⟩, ⟨100000, ⟨7, 2⟩⟩, 1⟩] []).accounts = some r →
        l' = Ledger.mk [⟨⟨0, ⟨7, 2⟩⟩, ⟨100000, ⟨7, 2⟩⟩, 1⟩] []) :=
  open_idempotent 3 ⟨7, 2⟩ 1 (Ledger.mk [⟨⟨0, ⟨7, 2⟩⟩, ⟨100000, ⟨7, 2⟩⟩, 1⟩] [])
    ⟨⟨⟨0, ⟨7, 2⟩⟩, ⟨100000, ⟨7, 2⟩⟩, 1⟩, rfl⟩

/-- **C8**: `close` is a no-op when no Account Record exists for
(owner, symbol code); when one exists with zero balance it removes exactly
that record; and when one exists with nonzero balance it fails with the
`NonZeroBalance` abort and the ledger — in particular the record — is
unchanged. -/
theorem close_contract (owner : AccountName) (sym : Symbol) (l : Ledger)
    (hnd : NodupAccKeys l) :
    (findRow owner sym.code l.accounts = none → close owner sym l = .ok l) ∧
    (∀ r, findRow owner sym.code l.accounts = some r → r.acct.balance.amount = 0 →
      ∃ l', close owner sym l = .ok l' ∧ findRow owner sym.code l'.accounts = none ∧
        (∀ o' k', ¬(o' = owner ∧ k' = sym.code) →
          findRow o' k' l'.accounts = findRow o' k' l.accounts) ∧
        l'.stats = l.stats) ∧
    (∀ r, findRow owner sym.code l.accounts = some r → r.acct.balance.amount ≠ 0 →
      close owner sym l = .error "cannot close because the balance is not zero" ∧
      applyOp (Op.close owner sym) l = l ∧
      get_balance (applyOp (Op.close owner sym) l) owner sym.code = .ok r.acct.balance) := by
  refine ⟨?_, ?_, ?_⟩
  · intro h
    unfold close
    rw [h]
  · intro r hr hz
    refine ⟨{ l with accounts := eraseRow owner sym.code l.accounts }, ?_, ?_, ?_, rfl⟩
    · unfold close
      rw [hr]
      simp only []
      rw [if_neg (not_not_intro hz)]
    · exact findRow_eraseRow_self hnd
    · exact fun o' k' hne => findRow_eraseRow_other l.accounts hne
  · intro r hr hz
    have herr : close owner sym l = .error "cannot close because the balance is not zero" := by
      unfold close
      rw [hr]
      simp only []
      rw [if_pos hz]
    have happ : applyOp (Op.close owner sym) l = l := applyOp_of_error herr
    refine ⟨herr, happ, ?_⟩
    rw [happ]
    exact get_balance_eval hr

/-- Witness for `close_contract` at a concrete zero-balance close. -/
theorem close_contract_witness :
    ∃ l', close 3 ⟨7, 2⟩ (Ledger.mk [] [⟨3, 1, ⟨⟨0, ⟨7, 2⟩⟩⟩⟩]) = .ok l' ∧
      findRow 3 7 l'.accounts = none ∧
      (∀ o' k', ¬(o' = 3 ∧ k' = 7) →
        findRow o' k' l'.accounts =
          findRow o' k' (Ledger.mk [] [⟨3, 1, ⟨⟨0, ⟨7, 2⟩⟩⟩⟩]).accounts) ∧
      l'.stats = (Ledger.mk [] [⟨3, 1, ⟨⟨0, ⟨7, 2⟩⟩⟩⟩]).stats :=
  (close_contract 3 ⟨7, 2⟩ (Ledger.mk [] [⟨3, 1, ⟨⟨0, ⟨7, 2⟩⟩⟩⟩]) (by unfold NodupAccKeys; decide)).2.1
    ⟨3, 1, ⟨⟨0, ⟨7, 2⟩⟩⟩⟩ rfl rfl

/-- **C9**: the read-only queries are partial: `get_supply` aborts when no
Supply Record exists for the symbol code, and `get_balance` aborts when no
Account Record exists for (owner, symbol code) — neither returns a zero or
empty value. -/
theorem queries_abort_when_absent (l : Ledger) (owner : AccountName) (c : SymCode) :
    (findStat c l.stats = none → get_supply l c = .error "unable to find key") ∧
    (findRow owner c l.accounts = none → get_balance l owner c = .error "unable to find key") := by
  constructor
  · intro h
    unfold get_supply
    rw [h]
  · intro h
    unfold get_balance
    rw [h]

/-- Witness for `queries_abort_when_absent` on the empty ledger. -/
theorem queries_abort_when_absent_witness :
    get_supply emptyLedger 7 = .error "unable to find key" ∧
    get_balance emptyLedger 1 7 = .error "unable to find key" :=
  ⟨(queries_abort_when_absent emptyLedger 1 7).1 rfl,
   (queries_abort_when_absent emptyLedger 1 7).2 rfl⟩

/-- **C10**: every Account Record's primary key is the raw symbol code of
its balance; in every reachable ledger each owner has at most one record
per symbol code; and the row lookup used by `sub_balance`, `add_balance`
and `get_balance` depends only on the symbol code, so amounts whose codes
agree but whose precisions differ resolve to the same record. -/
theorem accounts_keyed_by_symbol_code (ops : List Op) :
    (∀ r ∈ (applyOps ops emptyLedger).accounts,
      r.acct.primary_key = r.acct.balance.symbol.code) ∧
    ((applyOps ops emptyLedger).accounts.map rowKey).Nodup ∧
    (∀ (l : Ledger) (owner : AccountName) (v w : Asset), v.symbol.code = w.symbol.code →
      findRow owner v.symbol.code l.accounts = findRow owner w.symbol.code l.accounts) := by
  refine ⟨fun r _ => rfl, ?_, fun l o v w h => by rw [h]⟩
  exact applyOps_nodup ops (by unfold NodupAccKeys; decide)

/-- Witness for `accounts_keyed_by_symbol_code`: key uniqueness after a
concrete run, and a precision-differing lookup hitting the same record. -/
theorem accounts_keyed_by_symbol_code_witness :
    ((applyOps [Op.create 1 ⟨100000, ⟨7, 2⟩⟩, Op.issue 1 ⟨10000, ⟨7, 2⟩⟩ "",
        Op.transfer 1 2 ⟨3000, ⟨7, 2⟩⟩ ""] emptyLedger).accounts.map rowKey).Nodup ∧
    findRow 1 (Asset.mk 10 ⟨7, 2⟩).symbol.code
        (Ledger.mk [] [⟨1, 1, ⟨⟨100, ⟨7, 2⟩⟩⟩⟩]).accounts =
      findRow 1 (Asset.mk 10 ⟨7, 3⟩).symbol.code
        (Ledger.mk [] [⟨1, 1, ⟨⟨100, ⟨7, 2⟩⟩⟩⟩]).accounts :=
  ⟨(accounts_keyed_by_symbol_code [Op.create 1 ⟨100000, ⟨7, 2⟩⟩,
      Op.issue 1 ⟨10000, ⟨7, 2⟩⟩ "", Op.transfer 1 2 ⟨3000, ⟨7, 2⟩⟩ ""]).2.1,
   (accounts_keyed_by_symbol_code []).2.2 (Ledger.mk [] [⟨1, 1, ⟨⟨100, ⟨7, 2⟩⟩⟩⟩]) 1
     ⟨10, ⟨7, 2⟩⟩ ⟨10, ⟨7, 3⟩⟩ rfl⟩

end mytoken
